import Mathlib

/-!
Verification of the bootstrap confidence-interval estimator in
`baseline/TestModel.py`: the functions `bootstrap_iter` and `bootstrap`,
and the process-pool scaffolding `NoDaemonProcess` / `MyPool`.

The embedding works over exact rationals.  Library behaviour that the
source relies on is embedded from its documented semantics:

* `pandas.Series.sample(frac=f)` draws `round(f * len)` rows without
  replacement (Python's `round`, i.e. round half to even);
* `numpy.mean` is sum over length;
* `numpy.percentile(a, q)` uses the default linear interpolation
  (position `q/100 * (n-1)` into the sorted data) and raises
  `IndexError` on an empty array;
* `multiprocessing.pool.Pool(processes)` raises `ValueError` when
  `processes < 1`, and `pool.map` returns results in argument order,
  re-raising the exception of the earliest failing task;
* Python's in-place `list.sort()` sorts ascending; on scalars every
  comparison sort agrees elementwise, so it is embedded as insertion
  sort, which evaluates by structural recursion.

Randomness (the process-wide RNG consumed by `Series.sample`) enters the
embedding as an explicit oracle: the draw each iteration's worker makes.
Theorems about what the sampler guarantees are stated over every draw
satisfying `ValidSample`.
-/

namespace TestModel

/-- Row of a prediction or groundtruth table (a pandas DataFrame row):
columns `filename`, `event_label`, `onset`, `offset`. -/
structure Row where
  filename : String
  event_label : String
  onset : ℚ
  offset : ℚ
deriving DecidableEq

/-- Table of event rows, one row per event instance. -/
abbrev Table := List Row

/-- Predictions passed to `bootstrap_iter`: either a single table or a
Python list of tables, one per threshold (the `isinstance(pred, list)`
branch distinguishes the two). -/
inductive Pred where
  | single (t : Table)
  | multi (ts : List Table)
deriving DecidableEq

/-- Tag telling whether a prediction set is the list-of-tables form. -/
def Pred.isMulti : Pred → Bool
  | Pred.single _ => false
  | Pred.multi _ => true

/-- Tables carried by a prediction set. -/
def Pred.tables : Pred → List Table
  | Pred.single t => [t]
  | Pred.multi ts => ts

/-- Column access `gtruth.filename.drop_duplicates()`: the filename
column with duplicates removed, keeping the first occurrence of each
value (pandas' default `keep="first"`). -/
def uniqueFilenames (t : Table) : List String :=
  (t.map Row.filename).foldl (fun acc x => if x ∈ acc then acc else acc ++ [x]) []

/-- Python's built-in `round` on an exact rational: round half to even
(banker's rounding). -/
def pyRound (q : ℚ) : ℤ :=
  if q - ⌊q⌋ < 1 / 2 then ⌊q⌋
  else if 1 / 2 < q - ⌊q⌋ then ⌊q⌋ + 1
  else if ⌊q⌋ % 2 = 0 then ⌊q⌋ else ⌊q⌋ + 1

/-- Number of rows `Series.sample(frac=frac)` draws from a series of `n`
rows: pandas computes `n = round(frac * axis_length)` with Python's
`round`. -/
def sampleSize (frac : ℚ) (n : ℕ) : ℕ :=
  (pyRound (frac * n)).toNat

/-- Possible outcomes of `names.sample(frac=frac)` on a duplicate-free
series `names`: a draw without replacement of `sampleSize frac n`
distinct elements of `names`.  The draw itself is RNG state, so theorems
quantify over every draw satisfying this predicate. -/
def ValidSample (names : List String) (frac : ℚ) (draw : List String) : Prop :=
  draw.Nodup ∧ draw ⊆ names ∧ draw.length = sampleSize frac names.length

/-- Row filter `df[df.filename.isin(names_kept)]`: keep the rows whose
filename belongs to `names_kept`. -/
def restrictTable (names_kept : List String) (t : Table) : Table :=
  t.filter (fun r => decide (r.filename ∈ names_kept))

/-- Function `bootstrap_iter(pred, gtruth, metric, frac, _)` of
TestModel.py.  The draw `gtruth.filename.drop_duplicates().sample(frac=frac)`
consumes process-wide RNG state; it enters the embedding as the oracle
`sample`, applied to exactly the series and fraction the source applies
it to.  The last positional argument, the iteration index, is ignored by
the source (`_`), as it is here. -/
def bootstrap_iter {α : Type} (sample : List String → ℚ → List String)
    (pred : Pred) (gtruth : Table) (metric : Pred → Table → α)
    (frac : ℚ) (_ : ℕ) : α :=
  let names_kept := sample (uniqueFilenames gtruth) frac
  let pred_bt :=
    match pred with
    | Pred.multi ts => Pred.multi (ts.map (fun pdf => restrictTable names_kept pdf))
    | Pred.single t => Pred.single (restrictTable names_kept t)
  let gt_bt := restrictTable names_kept gtruth
  metric pred_bt gt_bt

/-- Constructor `multiprocessing.pool.Pool(processes)`: raises
`ValueError("Number of processes must be at least 1")` when
`processes < 1` (modelled as `none`), otherwise the pool holds exactly
`processes` worker processes.  `bootstrap` constructs
`MyPool(multiprocessing.cpu_count() - 1)` with no clamping. -/
def poolProcesses (cpuCount : ℕ) : Option ℕ :=
  if cpuCount - 1 < 1 then none else some (cpuCount - 1)

/-- Call `pool.map(f, iterable)`: results in argument order; if a task
raises, `map` re-raises the exception of the earliest failing argument
to the caller. -/
def poolMap {ε α : Type} (f : ℕ → Except ε α) : List ℕ → Except ε (List α)
  | [] => Except.ok []
  | i :: is =>
    match f i with
    | Except.error e => Except.error e
    | Except.ok r =>
      match poolMap f is with
      | Except.error e => Except.error e
      | Except.ok rs => Except.ok (r :: rs)

/-- Evaluation of `np.mean(l)`: sum over length.  On the empty list numpy
returns NaN (with a RuntimeWarning, not an exception); the junk value 0
produced here never escapes `bootstrap`, because `np.percentile` raises
first on an empty list. -/
def npMean (l : List ℚ) : ℚ :=
  l.sum / l.length

/-- Linear interpolation of a list of values at a virtual position
`pos`: with `i` the floor of `pos` and `g` its fractional part, the
value `l[i] + g * (l[i+1] - l[i])`, where an index one past the end is
clipped back to the last element (numpy clips `indices_above` to
`n - 1`; for `0 ≤ pos ≤ n - 1` the clipped case only occurs with
`g = 0`). -/
def interpAt (l : List ℚ) (pos : ℚ) : ℚ :=
  let i : ℕ := (⌊pos⌋).toNat
  let lo := l.getD i 0
  let hi := l.getD (i + 1) lo
  lo + (pos - (i : ℚ)) * (hi - lo)

/-- Linear-interpolation percentile that `np.percentile(l, q)` computes
on a nonempty list `l` already sorted ascending: interpolation at the
virtual position `q/100 * (n-1)` (numpy's default method). -/
def percentileSorted (l : List ℚ) (q : ℚ) : ℚ :=
  interpAt l (q / 100 * ((l.length : ℚ) - 1))

/-- Call `np.percentile(l, q)`: on an empty array numpy raises
`IndexError: cannot do a non-empty take from an empty axes.`, modelled
as `none`. -/
def npPercentile (l : List ℚ) (q : ℚ) : Option ℚ :=
  if l.isEmpty then none else some (percentileSorted l q)

/-- Exceptions a `bootstrap` call can raise: `ValueError` from
`Pool(processes)` with `processes < 1`, `IndexError` from
`np.percentile` on an empty result list, or an exception raised by the
metric function inside a worker, re-raised by `pool.map`. -/
inductive BootErr (ε : Type) where
  | valueError
  | indexError
  | metricRaised (e : ε)
deriving DecidableEq

/-- Function `bootstrap(pred, gtruth, metric, n_iterations=200, frac=0.8,
confidence=0.9)` of TestModel.py.  `cpuCount` is the machine's
`multiprocessing.cpu_count()`; `sample i` is the pandas draw iteration
`i`'s worker makes (process-wide RNG state, an oracle per iteration).
The metric may raise (`Except ε`); `pool.map` propagates the exception. -/
def bootstrap {ε : Type} (cpuCount : ℕ)
    (sample : ℕ → List String → ℚ → List String)
    (pred : Pred) (gtruth : Table) (metric : Pred → Table → Except ε ℚ)
    (n_iterations : ℕ) (frac : ℚ) (confidence : ℚ) :
    Except (BootErr ε) (ℚ × ℚ × ℚ) :=
  match poolProcesses cpuCount with
  | none => Except.error BootErr.valueError
  | some _ =>
    match poolMap (fun i => bootstrap_iter (sample i) pred gtruth metric frac i)
        (List.range n_iterations) with
    | Except.error e => Except.error (BootErr.metricRaised e)
    | Except.ok result_metrics =>
      let result_sorted := result_metrics.insertionSort (· ≤ ·)
      let mean_val := npMean result_sorted
      match npPercentile result_sorted ((1 - confidence) / 2 * 100),
          npPercentile result_sorted ((confidence + (1 - confidence) / 2) * 100) with
      | some lower, some upper => Except.ok (mean_val, lower, upper)
      | _, _ => Except.error BootErr.indexError

/-- State of a `NoDaemonProcess` relevant to its `daemon` property: the
class stores nothing for it (the getter is constant, the setter drops
the value), so the carrier is a fieldless structure. -/
structure NoDaemonProcess where
deriving DecidableEq

/-- Getter `_get_daemon` of `NoDaemonProcess`: always returns `False`. -/
def NoDaemonProcess.daemon (_ : NoDaemonProcess) : Bool :=
  false

/-- Setter `_set_daemon` of `NoDaemonProcess`: `pass`, discarding the
assigned value. -/
def NoDaemonProcess.setDaemon (p : NoDaemonProcess) (_ : Bool) : NoDaemonProcess :=
  p

/-- Worker-process classes in play: `multiprocessing.Process`, the
default of `multiprocessing.pool.Pool`, and the `NoDaemonProcess`
subclass. -/
inductive ProcessClass where
  | defaultProcess
  | noDaemonProcess
deriving DecidableEq

/-- Class attribute `Process` of `MyPool`, the `multiprocessing.pool.Pool`
subclass that `bootstrap` instantiates: overridden to `NoDaemonProcess`. -/
def MyPool.Process : ProcessClass :=
  ProcessClass.noDaemonProcess

/-- Arithmetic mean in the spec's words: "`mean` = arithmetic mean of
all results", stated directly over the unsorted iteration results, to be
compared with what `bootstrap` computes. -/
def specArithMean (results : List ℚ) : ℚ :=
  results.sum / results.length

/-- Test row with filename `a`. -/
def rowA : Row :=
  ⟨"a", "Dog", 0, 1⟩

/-- Test row with filename `b`. -/
def rowB : Row :=
  ⟨"b", "Cat", 0, 1⟩

/-- Groundtruth table with two unique filenames, one event each. -/
def gtCE : Table :=
  [rowA, rowB]

/-- Draw oracle for the counterexample run: iteration 0 draws the subset
with filename `a`, every other iteration draws the one with `b`.  Both
are size-1 draws from the 2-element filename universe, hence valid
outcomes of `sample(frac=0.5)`. -/
def sampleCE : ℕ → List String → ℚ → List String :=
  fun i _ _ => if i = 0 then ["a"] else ["b"]

/-- Deterministic test metric: 21 when the groundtruth subset contains
filename `a`, otherwise 0. -/
def metricCE : Pred → Table → Except Unit ℚ :=
  fun _ gt_bt => Except.ok (if gt_bt.any (fun r => decide (r.filename = "a")) then 21 else 0)

/-- Draw oracle for the error-propagation run: iteration 1 draws the
subset with filename `a`, all others the one with `b`. -/
def sampleE : ℕ → List String → ℚ → List String :=
  fun i _ _ => if i = 1 then ["a"] else ["b"]

/-- Test metric that raises exactly when the groundtruth subset contains
filename `a`. -/
def metricE : Pred → Table → Except Unit ℚ :=
  fun _ gt_bt =>
    if gt_bt.any (fun r => decide (r.filename = "a")) then Except.error ()
    else Except.ok 0

/-- Monotonicity of indexing into an ascending-sorted list. -/
lemma sorted_getD_mono (l : List ℚ) (hs : l.Sorted (· ≤ ·)) {i j : ℕ}
    (hij : i ≤ j) (hj : j < l.length) : l.getD i 0 ≤ l.getD j 0 := by
  have hi : i < l.length := lt_of_le_of_lt hij hj
  rw [List.getD_eq_getElem l 0 hi, List.getD_eq_getElem l 0 hj]
  have := hs.rel_get_of_le (a := ⟨i, hi⟩) (b := ⟨j, hj⟩) hij
  simpa using this

/-- Cast of the floor of a nonnegative rational through `Int.toNat`. -/
lemma toNat_floor_cast {p : ℚ} (h0 : 0 ≤ p) : (((⌊p⌋).toNat : ℕ) : ℚ) = ((⌊p⌋ : ℤ) : ℚ) := by
  exact_mod_cast congrArg (fun z : ℤ => (z : ℚ)) (Int.toNat_of_nonneg (Int.floor_nonneg.mpr h0))

/-- In a sorted list the clipped successor value is at least the cell
value. -/
lemma getD_succ_self_le (l : List ℚ) (hs : l.Sorted (· ≤ ·)) (i : ℕ) :
    l.getD i 0 ≤ l.getD (i + 1) (l.getD i 0) := by
  by_cases hsucc : i + 1 < l.length
  · rw [List.getD_eq_getElem l _ hsucc]
    rw [show l[i+1] = l.getD (i+1) 0 from (List.getD_eq_getElem l 0 hsucc).symm]
    exact sorted_getD_mono l hs (Nat.le_succ i) hsucc
  · rw [List.getD_eq_default l _ (le_of_not_lt hsucc)]

/-- Interpolation at a nonnegative in-range position is at least the
value at the cell's lower index. -/
lemma getD_le_interpAt (l : List ℚ) (hs : l.Sorted (· ≤ ·)) (p : ℚ) (h0 : 0 ≤ p) :
    l.getD ((⌊p⌋).toNat) 0 ≤ interpAt l p := by
  have hiq := toNat_floor_cast h0
  have hg : 0 ≤ p - (((⌊p⌋).toNat : ℕ) : ℚ) := by
    rw [hiq]; linarith [Int.floor_le p]
  have hd := getD_succ_self_le l hs ((⌊p⌋).toNat)
  unfold interpAt
  dsimp only
  nlinarith [mul_nonneg hg (sub_nonneg.mpr hd)]

/-- Interpolation at a position whose cell has a real successor is at
most the value at the successor index. -/
lemma interpAt_le_getD_succ (l : List ℚ) (hs : l.Sorted (· ≤ ·)) (p : ℚ) (h0 : 0 ≤ p)
    (hsucc : (⌊p⌋).toNat + 1 < l.length) :
    interpAt l p ≤ l.getD ((⌊p⌋).toNat + 1) 0 := by
  have hiq := toNat_floor_cast h0
  have hg0 : 0 ≤ p - (((⌊p⌋).toNat : ℕ) : ℚ) := by
    rw [hiq]; linarith [Int.floor_le p]
  have hg1 : p - (((⌊p⌋).toNat : ℕ) : ℚ) ≤ 1 := by
    rw [hiq]; linarith [Int.lt_floor_add_one p]
  have hlo : l.getD ((⌊p⌋).toNat) 0 ≤ l.getD ((⌊p⌋).toNat + 1) 0 :=
    sorted_getD_mono l hs (Nat.le_succ _) hsucc
  unfold interpAt
  dsimp only
  rw [List.getD_eq_getElem l _ hsucc,
    show l[(⌊p⌋).toNat + 1] = l.getD ((⌊p⌋).toNat + 1) 0 from
      (List.getD_eq_getElem l 0 hsucc).symm]
  nlinarith [mul_nonneg (sub_nonneg.mpr hg1) (sub_nonneg.mpr hlo)]

/-- Monotonicity of linear interpolation in the position, over a sorted
list and positions within `[0, n-1]`. -/
lemma interpAt_mono (l : List ℚ) (hs : l.Sorted (· ≤ ·)) (hne : l ≠ [])
    {p₁ p₂ : ℚ} (h0 : 0 ≤ p₁) (h12 : p₁ ≤ p₂) (h2 : p₂ ≤ (l.length : ℚ) - 1) :
    interpAt l p₁ ≤ interpAt l p₂ := by
  have h02 : 0 ≤ p₂ := le_trans h0 h12
  have hlen : 1 ≤ l.length := List.length_pos.mpr hne
  have hi12 : (⌊p₁⌋).toNat ≤ (⌊p₂⌋).toNat :=
    Int.toNat_le_toNat (Int.floor_le_floor h12)
  have hfl2 : ⌊p₂⌋ ≤ (l.length : ℤ) - 1 := by
    have h2' : p₂ ≤ (((l.length : ℤ) - 1 : ℤ) : ℚ) := by push_cast; exact h2
    have := Int.floor_le_floor h2'
    rwa [Int.floor_intCast] at this
  have hin2 : (⌊p₂⌋).toNat < l.length := by omega
  rcases eq_or_lt_of_le hi12 with heq | hlt
  · have hd := getD_succ_self_le l hs ((⌊p₁⌋).toNat)
    have hg := sub_nonneg.mpr hd
    unfold interpAt
    dsimp only
    rw [← heq]
    nlinarith [mul_le_mul_of_nonneg_right h12 hg]
  · calc interpAt l p₁
        ≤ l.getD ((⌊p₁⌋).toNat + 1) 0 :=
          interpAt_le_getD_succ l hs p₁ h0 (lt_of_le_of_lt hlt hin2)
      _ ≤ l.getD ((⌊p₂⌋).toNat) 0 := sorted_getD_mono l hs hlt hin2
      _ ≤ interpAt l p₂ := getD_le_interpAt l hs p₂ h02

/-- Monotonicity of the numpy linear-interpolation percentile in `q`. -/
lemma percentileSorted_mono (l : List ℚ) (hs : l.Sorted (· ≤ ·)) (hne : l ≠ [])
    {q₁ q₂ : ℚ} (h0 : 0 ≤ q₁) (h12 : q₁ ≤ q₂) (h100 : q₂ ≤ 100) :
    percentileSorted l q₁ ≤ percentileSorted l q₂ := by
  have hlen : 1 ≤ l.length := List.length_pos.mpr hne
  have hlen' : (0 : ℚ) ≤ (l.length : ℚ) - 1 := by
    have : (1 : ℚ) ≤ (l.length : ℚ) := by exact_mod_cast hlen
    linarith
  unfold percentileSorted
  apply interpAt_mono l hs hne
  · exact mul_nonneg (by positivity) hlen'
  · exact mul_le_mul_of_nonneg_right (by linarith) hlen'
  · nlinarith

/-- C7: the iteration index passed to `bootstrap_iter` has no effect:
with identical remaining inputs and identical random state (the same
draw oracle), any two indices give identical results. -/
theorem bootstrap_iter_index_irrelevant {α : Type}
    (sample : List String → ℚ → List String) (pred : Pred) (gtruth : Table)
    (metric : Pred → Table → α) (frac : ℚ) (i j : ℕ) :
    bootstrap_iter sample pred gtruth metric frac i =
      bootstrap_iter sample pred gtruth metric frac j :=
  rfl

/-- C9: every `NoDaemonProcess` reads `daemon` as `False`, any assignment
to `daemon` leaves subsequent reads returning `False`, and the pool class
used by `bootstrap` uses `NoDaemonProcess` as its worker process type. -/
theorem noDaemonProcess_invariant :
    (∀ p : NoDaemonProcess, p.daemon = false) ∧
    (∀ (p : NoDaemonProcess) (v : Bool), (p.setDaemon v).daemon = false) ∧
    MyPool.Process = ProcessClass.noDaemonProcess :=
  ⟨fun _ => rfl, fun _ _ => rfl, rfl⟩

end TestModel

namespace TestModel

/-- Result list of a successful `pool.map` has one entry per argument. -/
lemma poolMap_ok_length {ε α : Type} {f : ℕ → Except ε α} :
    ∀ {l : List ℕ} {rs : List α}, poolMap f l = Except.ok rs → rs.length = l.length := by
  intro l
  induction l with
  | nil => intro rs h; simp only [poolMap] at h; cases h; rfl
  | cons i is ih =>
    intro rs h
    simp only [poolMap] at h
    cases hf : f i with
    | error e => rw [hf] at h; cases h
    | ok r =>
      rw [hf] at h
      cases hrec : poolMap f is with
      | error e => rw [hrec] at h; cases h
      | ok rs' => rw [hrec] at h; cases h; simp [ih hrec]

/-- When every task succeeds, `pool.map` returns a result list. -/
lemma poolMap_ok_of_forall {ε α : Type} {f : ℕ → Except ε α} :
    ∀ {l : List ℕ}, (∀ i ∈ l, (f i).isOk = true) →
      ∃ rs, poolMap f l = Except.ok rs := by
  intro l
  induction l with
  | nil => intro _; exact ⟨[], rfl⟩
  | cons i is ih =>
    intro h
    have hi := h i (List.mem_cons_self i is)
    cases hf : f i with
    | error e => rw [hf] at hi; simp [Except.isOk, Except.toBool] at hi
    | ok r =>
      obtain ⟨rs, hrs⟩ := ih (fun j hj => h j (List.mem_cons_of_mem i hj))
      exact ⟨r :: rs, by simp only [poolMap, hf, hrs]⟩

/-- When exactly one task raises, `pool.map` re-raises that exception. -/
lemma poolMap_error_of_unique {ε α : Type} {f : ℕ → Except ε α} {i : ℕ} {e : ε} :
    ∀ {l : List ℕ}, i ∈ l → f i = Except.error e →
      (∀ j ∈ l, j ≠ i → (f j).isOk = true) → poolMap f l = Except.error e := by
  intro l
  induction l with
  | nil => intro h; cases h
  | cons a is ih =>
    intro hmem hfi hok
    by_cases ha : a = i
    · subst ha
      simp only [poolMap, hfi]
    · have hmem' : i ∈ is := by
        cases List.mem_cons.mp hmem with
        | inl h => exact absurd h.symm ha
        | inr h => exact h
      have haok := hok a (List.mem_cons_self a is) ha
      cases hfa : f a with
      | error e' => rw [hfa] at haok; simp [Except.isOk, Except.toBool] at haok
      | ok r =>
        have := ih hmem' hfi (fun j hj hne => hok j (List.mem_cons_of_mem a hj) hne)
        simp only [poolMap, hfa, this]

/-- Sorting the result list never yields the empty list unless the
results were empty. -/
lemma insertionSort_ne_nil {rs : List ℚ} (h : rs ≠ []) :
    rs.insertionSort (· ≤ ·) ≠ [] := by
  intro hs
  apply h
  have := (List.perm_insertionSort (· ≤ ·) rs).length_eq
  rw [hs] at this
  exact List.length_eq_zero.mp this.symm

/-- Computation `bootstrap` performs once every iteration has returned:
sort ascending, take `np.mean` and the two `np.percentile` values. -/
lemma bootstrap_ok_of_poolMap {ε : Type} (cpuCount : ℕ) (confidence : ℚ)
    {sample : ℕ → List String → ℚ → List String} {pred : Pred} {gtruth : Table}
    {metric : Pred → Table → Except ε ℚ} {n_iterations : ℕ} {frac : ℚ}
    {rs : List ℚ} (hcpu : 2 ≤ cpuCount)
    (hpm : poolMap (fun i => bootstrap_iter (sample i) pred gtruth metric frac i)
      (List.range n_iterations) = Except.ok rs) (hne : rs ≠ []) :
    bootstrap cpuCount sample pred gtruth metric n_iterations frac confidence =
      Except.ok (npMean (rs.insertionSort (· ≤ ·)),
        percentileSorted (rs.insertionSort (· ≤ ·)) ((1 - confidence) / 2 * 100),
        percentileSorted (rs.insertionSort (· ≤ ·))
          ((confidence + (1 - confidence) / 2) * 100)) := by
  have hpool : poolProcesses cpuCount = some (cpuCount - 1) := by
    unfold poolProcesses
    rw [if_neg (by omega)]
  have hemp : (rs.insertionSort (· ≤ ·)).isEmpty = false :=
    Bool.eq_false_iff.mpr (fun ht => insertionSort_ne_nil hne (List.isEmpty_iff.mp ht))
  unfold bootstrap
  rw [hpool, hpm]
  simp only [npPercentile, hemp, Bool.false_eq_true, if_false]

/-- Inversion: a successful `bootstrap` call came from a successful
`pool.map`, and its triple is mean and percentiles of the sorted
results. -/
lemma bootstrap_ok_inv {ε : Type} {cpuCount : ℕ}
    {sample : ℕ → List String → ℚ → List String} {pred : Pred} {gtruth : Table}
    {metric : Pred → Table → Except ε ℚ} {n_iterations : ℕ}
    {frac confidence m lo hi : ℚ}
    (h : bootstrap cpuCount sample pred gtruth metric n_iterations frac confidence =
      Except.ok (m, lo, hi)) :
    ∃ rs, poolMap (fun i => bootstrap_iter (sample i) pred gtruth metric frac i)
        (List.range n_iterations) = Except.ok rs ∧ rs ≠ [] ∧
      m = npMean (rs.insertionSort (· ≤ ·)) ∧
      lo = percentileSorted (rs.insertionSort (· ≤ ·)) ((1 - confidence) / 2 * 100) ∧
      hi = percentileSorted (rs.insertionSort (· ≤ ·))
        ((confidence + (1 - confidence) / 2) * 100) := by
  unfold bootstrap at h
  cases hpp : poolProcesses cpuCount with
  | none => rw [hpp] at h; cases h
  | some k =>
    rw [hpp] at h
    cases hpm : poolMap (fun i => bootstrap_iter (sample i) pred gtruth metric frac i)
        (List.range n_iterations) with
    | error e => rw [hpm] at h; cases h
    | ok rs =>
      rw [hpm] at h
      have hemp : (rs.insertionSort (· ≤ ·)).isEmpty = false := by
        cases he : (rs.insertionSort (· ≤ ·)).isEmpty
        · rfl
        · exfalso
          simp [npPercentile, he] at h
      have hne : rs ≠ [] := by
        intro hnil
        subst hnil
        simp [List.insertionSort] at hemp
      simp only [npPercentile, hemp, Bool.false_eq_true, if_false,
        Except.ok.injEq, Prod.mk.injEq] at h
      exact ⟨rs, rfl, hne, h.1.symm, h.2.1.symm, h.2.2.symm⟩

end TestModel

namespace TestModel

/-- Percentile of a one-element list: any `q` gives the element (the
virtual position is `q/100 * 0 = 0`). -/
lemma percentileSorted_singleton (v q : ℚ) : percentileSorted [v] q = v := by
  unfold percentileSorted interpAt
  dsimp only
  norm_num

/-- Tasks that all return the same value give `pool.map` a constant
result list. -/
lemma poolMap_replicate {ε α : Type} {f : ℕ → Except ε α} {c : α} :
    ∀ {l : List ℕ}, (∀ i ∈ l, f i = Except.ok c) →
      poolMap f l = Except.ok (List.replicate l.length c) := by
  intro l
  induction l with
  | nil => intro _; rfl
  | cons i is ih =>
    intro h
    have hi := h i (List.mem_cons_self i is)
    have hrest := ih (fun j hj => h j (List.mem_cons_of_mem i hj))
    simp only [poolMap, hi, hrest, List.length_cons, List.replicate_succ]

/-- The filename universe of the test groundtruth. -/
lemma uniqueFilenames_gtCE : uniqueFilenames gtCE = ["a", "b"] := by
  simp [uniqueFilenames, gtCE, rowA, rowB]

/-- Evaluation of iteration 0 of the counterexample run. -/
lemma iterCE_zero :
    bootstrap_iter (sampleCE 0) (Pred.single []) gtCE metricCE (1/2) 0 = Except.ok 21 := by
  simp [bootstrap_iter, sampleCE, metricCE, gtCE, rowA, rowB, restrictTable]

/-- Evaluation of every later iteration of the counterexample run. -/
lemma iterCE_pos (i : ℕ) (h : i ≠ 0) :
    bootstrap_iter (sampleCE i) (Pred.single []) gtCE metricCE (1/2) i = Except.ok 0 := by
  simp [bootstrap_iter, sampleCE, h, metricCE, gtCE, rowA, rowB, restrictTable]

/-- One successful step of `pool.map`. -/
lemma poolMap_cons_ok {ε α : Type} {f : ℕ → Except ε α} {i : ℕ} {is : List ℕ}
    {r : α} {rs : List α} (h : f i = Except.ok r) (h2 : poolMap f is = Except.ok rs) :
    poolMap f (i :: is) = Except.ok (r :: rs) := by
  simp only [poolMap, h, h2]

/-- The 21 iteration results of the counterexample run, in index order. -/
lemma poolMapCE :
    poolMap (fun i => bootstrap_iter (sampleCE i) (Pred.single []) gtCE metricCE (1/2) i)
      (List.range 21) = Except.ok (21 :: List.replicate 20 0) := by
  rw [List.range_succ_eq_map]
  have hrest : ∀ i ∈ (List.range 20).map Nat.succ,
      bootstrap_iter (sampleCE i) (Pred.single []) gtCE metricCE (1/2) i = Except.ok 0 := by
    intro i hi
    obtain ⟨j, _, rfl⟩ := List.mem_map.mp hi
    exact iterCE_pos _ (Nat.succ_ne_zero j)
  refine poolMap_cons_ok iterCE_zero ?_
  rw [poolMap_replicate hrest]
  simp

/-- Inserting an element above the replicated value appends it. -/
lemma orderedInsert_replicate_gt {x c : ℚ} (h : ¬ x ≤ c) :
    ∀ n, List.orderedInsert (· ≤ ·) x (List.replicate n c) = List.replicate n c ++ [x] := by
  intro n
  induction n with
  | zero => rfl
  | succ k ih =>
    simp only [List.replicate_succ, List.orderedInsert, if_neg h, ih, List.cons_append]

/-- Sorting a constant list is the identity. -/
lemma insertionSort_replicate (c : ℚ) :
    ∀ n, List.insertionSort (· ≤ ·) (List.replicate n c) = List.replicate n c := by
  intro n
  induction n with
  | zero => rfl
  | succ k ih =>
    simp only [List.replicate_succ, List.insertionSort, ih]
    cases k with
    | zero => rfl
    | succ m => simp [List.replicate_succ, List.orderedInsert]

/-- Ascending sort of the counterexample results: twenty zeros, then 21. -/
lemma sortCE :
    List.insertionSort (· ≤ ·) ((21 : ℚ) :: List.replicate 20 0) =
      List.replicate 20 0 ++ [21] := by
  simp only [List.insertionSort, insertionSort_replicate]
  exact orderedInsert_replicate_gt (by norm_num) 20

/-- Index below 20 into the sorted counterexample results reads a zero. -/
lemma getD_rep_app_lt {k : ℕ} (d : ℚ) (h : k < 20) :
    (List.replicate 20 (0:ℚ) ++ [21]).getD k d = 0 := by
  have hk : k < (List.replicate 20 (0:ℚ) ++ [21]).length := by simp; omega
  rw [List.getD_eq_getElem _ _ hk, List.getElem_append_left (by simpa using h)]
  exact List.getElem_replicate _ _

/-- Index 20 into the sorted counterexample results reads the outlier. -/
lemma getD_rep_app_last (d : ℚ) :
    (List.replicate 20 (0:ℚ) ++ [21]).getD 20 d = 21 := by
  have hk : 20 < (List.replicate 20 (0:ℚ) ++ [21]).length := by simp
  rw [List.getD_eq_getElem _ _ hk, List.getElem_append_right (by simp)]
  simp

/-- Mean of the counterexample results. -/
lemma meanCE : npMean (List.replicate 20 (0:ℚ) ++ [21]) = 1 := by
  unfold npMean
  simp [List.sum_replicate]

/-- Lower percentile of the counterexample results: the 5th percentile
of twenty zeros and one 21 is 0. -/
lemma pctCE_low : percentileSorted (List.replicate 20 (0:ℚ) ++ [21]) 5 = 0 := by
  unfold percentileSorted
  have hlen : ((List.replicate 20 (0:ℚ) ++ [21]).length : ℚ) = 21 := by simp
  rw [hlen, show (5:ℚ)/100 * (21 - 1) = 1 by norm_num]
  unfold interpAt
  dsimp only
  rw [show ((⌊(1:ℚ)⌋).toNat : ℕ) = 1 by norm_num]
  rw [getD_rep_app_lt 0 (by norm_num), getD_rep_app_lt 0 (by norm_num)]
  norm_num

/-- Upper percentile of the counterexample results: the 95th percentile
of twenty zeros and one 21 is still 0 (position 19 of 0..20). -/
lemma pctCE_high : percentileSorted (List.replicate 20 (0:ℚ) ++ [21]) 95 = 0 := by
  unfold percentileSorted
  have hlen : ((List.replicate 20 (0:ℚ) ++ [21]).length : ℚ) = 21 := by simp
  rw [hlen, show (95:ℚ)/100 * (21 - 1) = 19 by norm_num]
  unfold interpAt
  dsimp only
  rw [show ((⌊(19:ℚ)⌋).toNat : ℕ) = 19 by rw [show ⌊(19:ℚ)⌋ = 19 by norm_num]; rfl]
  rw [getD_rep_app_lt 0 (by norm_num), getD_rep_app_last]
  norm_num

/-- Full evaluation of the counterexample run of `bootstrap`. -/
lemma bootstrapCE_eval :
    bootstrap 2 sampleCE (Pred.single []) gtCE metricCE 21 (1/2) (9/10) =
      Except.ok (1, 0, 0) := by
  have h := bootstrap_ok_of_poolMap 2 (9/10) (by norm_num) poolMapCE (by simp)
  rw [h, sortCE, show ((1:ℚ) - 9/10) / 2 * 100 = 5 by norm_num,
    show ((9:ℚ)/10 + (1 - 9/10) / 2) * 100 = 95 by norm_num,
    meanCE, pctCE_low, pctCE_high]

end TestModel

namespace TestModel

/-- C1 (amended): with confidence strictly between 0 and 1, every triple
a successful `bootstrap` call returns satisfies
`lower_bound ≤ upper_bound` (the percentile is monotone in `q`); the
claimed stronger chain `lower_bound ≤ mean ≤ upper_bound` fails, see the
counterexample. -/
theorem bootstrap_lower_le_upper {ε : Type} (cpuCount : ℕ)
    (sample : ℕ → List String → ℚ → List String) (pred : Pred) (gtruth : Table)
    (metric : Pred → Table → Except ε ℚ) (n_iterations : ℕ)
    (frac confidence m lo hi : ℚ) (hc0 : 0 < confidence) (hc1 : confidence < 1)
    (hok : bootstrap cpuCount sample pred gtruth metric n_iterations frac confidence =
      Except.ok (m, lo, hi)) : lo ≤ hi := by
  obtain ⟨rs, -, hne, -, hlo, hhi⟩ := bootstrap_ok_inv hok
  rw [hlo, hhi]
  refine percentileSorted_mono _ (List.sorted_insertionSort (· ≤ ·) rs)
    (insertionSort_ne_nil hne) (by linarith) (by linarith) (by linarith)

/-- C1 counterexample: a concrete 21-iteration run of `bootstrap` (two
filenames, fraction 1/2, default confidence 0.9) in which every drawn
subset is a valid pandas sample, the returned triple is `(1, 0, 0)`, and
`lower_bound ≤ mean ≤ upper_bound` is false (`mean = 1 > 0 = upper`):
twenty iteration results are 0 and one is 21, so the mean 1 exceeds the
95th percentile 0. -/
theorem bootstrap_mean_outside_interval :
    bootstrap 2 sampleCE (Pred.single []) gtCE metricCE 21 (1/2) (9/10) =
      Except.ok (1, 0, 0) ∧
    ValidSample (uniqueFilenames gtCE) (1/2) (sampleCE 0 (uniqueFilenames gtCE) (1/2)) ∧
    ValidSample (uniqueFilenames gtCE) (1/2) (sampleCE 1 (uniqueFilenames gtCE) (1/2)) ∧
    ¬((0:ℚ) ≤ 1 ∧ (1:ℚ) ≤ 0) := by
  refine ⟨bootstrapCE_eval, ?_, ?_, by norm_num⟩
  · rw [uniqueFilenames_gtCE]
    norm_num [sampleCE, ValidSample, sampleSize, pyRound]
  · rw [uniqueFilenames_gtCE]
    norm_num [sampleCE, ValidSample, sampleSize, pyRound]

/-- Evaluation of a one-iteration run with a constant metric. -/
lemma bootstrap_eval_const_one :
    bootstrap 2 (fun _ _ _ => ["a"]) (Pred.single []) []
      (fun _ _ => (Except.ok 5 : Except Unit ℚ)) 1 (4/5) (9/10) =
      Except.ok (5, 5, 5) := by
  have hpm : poolMap (fun i => bootstrap_iter ((fun _ _ _ => (["a"] : List String)) i)
      (Pred.single []) [] (fun _ _ => (Except.ok 5 : Except Unit ℚ)) (4/5) i)
      (List.range 1) = Except.ok [5] := by
    rw [show List.range 1 = [0] from rfl]
    exact poolMap_cons_ok rfl rfl
  have h := bootstrap_ok_of_poolMap 2 (9/10) (by norm_num) hpm (by simp)
  rw [h]
  rw [show ([5] : List ℚ).insertionSort (· ≤ ·) = [5] from rfl]
  rw [percentileSorted_singleton, percentileSorted_singleton]
  norm_num [npMean]

/-- Witness for the amended C1 theorem at a concrete input. -/
theorem bootstrap_lower_le_upper_witness :
    (0:ℚ) < 9/10 ∧ (9:ℚ)/10 < 1 ∧ (5:ℚ) ≤ 5 :=
  ⟨by norm_num, by norm_num,
    bootstrap_lower_le_upper 2 (fun _ _ _ => ["a"]) (Pred.single []) []
      (fun _ _ => (Except.ok 5 : Except Unit ℚ)) 1 (4/5) (9/10) 5 5 5
      (by norm_num) (by norm_num) bootstrap_eval_const_one⟩

end TestModel

namespace TestModel

/-- C2: a `bootstrap` call whose iterations return the results `rs`
returns exactly the triple (arithmetic mean of all results, percentile
`(1-confidence)/2 * 100` of the ascending-sorted results, percentile
`(confidence + (1-confidence)/2) * 100` of the ascending-sorted
results); with the default confidence 0.9 those are the 5th and 95th
percentiles. -/
theorem bootstrap_aggregation {ε : Type} (cpuCount : ℕ) (confidence : ℚ)
    (sample : ℕ → List String → ℚ → List String) (pred : Pred) (gtruth : Table)
    (metric : Pred → Table → Except ε ℚ) (n_iterations : ℕ) (frac : ℚ) (rs : List ℚ)
    (hcpu : 2 ≤ cpuCount) (hn : 1 ≤ n_iterations)
    (hpm : poolMap (fun i => bootstrap_iter (sample i) pred gtruth metric frac i)
      (List.range n_iterations) = Except.ok rs) :
    List.Sorted (· ≤ ·) (rs.insertionSort (· ≤ ·)) ∧
    (rs.insertionSort (· ≤ ·)).Perm rs ∧
    rs.length = n_iterations ∧
    bootstrap cpuCount sample pred gtruth metric n_iterations frac confidence =
      Except.ok (specArithMean rs,
        percentileSorted (rs.insertionSort (· ≤ ·)) ((1 - confidence) / 2 * 100),
        percentileSorted (rs.insertionSort (· ≤ ·))
          ((confidence + (1 - confidence) / 2) * 100)) ∧
    ((1 - (9:ℚ)/10) / 2 * 100 = 5 ∧ ((9:ℚ)/10 + (1 - (9:ℚ)/10) / 2) * 100 = 95) := by
  have hlen : rs.length = n_iterations := by
    rw [poolMap_ok_length hpm, List.length_range]
  have hne : rs ≠ [] := by
    intro h
    rw [h] at hlen
    simp at hlen
    omega
  refine ⟨List.sorted_insertionSort (· ≤ ·) rs, List.perm_insertionSort (· ≤ ·) rs,
    hlen, ?_, by norm_num, by norm_num⟩
  rw [bootstrap_ok_of_poolMap cpuCount confidence hcpu hpm hne]
  have hperm := List.perm_insertionSort (· ≤ ·) rs
  unfold npMean specArithMean
  rw [hperm.sum_eq, hperm.length_eq]

/-- Witness for the C2 theorem at a one-iteration run with a constant
metric. -/
theorem bootstrap_aggregation_witness :
    bootstrap 2 (fun _ _ _ => ["a"]) (Pred.single [])
      [] (fun _ _ => (Except.ok 5 : Except Unit ℚ)) 1 (4/5) (9/10) =
      Except.ok (specArithMean [5],
        percentileSorted (([5] : List ℚ).insertionSort (· ≤ ·)) ((1 - 9/10) / 2 * 100),
        percentileSorted (([5] : List ℚ).insertionSort (· ≤ ·))
          ((9/10 + (1 - 9/10) / 2) * 100)) :=
  (bootstrap_aggregation 2 (9/10) (fun _ _ _ => ["a"]) (Pred.single []) []
    (fun _ _ => (Except.ok 5 : Except Unit ℚ)) 1 (4/5) [5] (by norm_num) (by norm_num)
    (by rw [show List.range 1 = [0] from rfl]; exact poolMap_cons_ok rfl rfl)).2.2.2.1

/-- C10: a one-iteration `bootstrap` run whose single metric value is
`v` returns the degenerate triple `(v, v, v)`: the mean of one value is
that value and each percentile of a singleton is that value. -/
theorem bootstrap_single_iteration {ε : Type} (cpuCount : ℕ)
    (sample : ℕ → List String → ℚ → List String) (pred : Pred) (gtruth : Table)
    (metric : Pred → Table → Except ε ℚ) (frac confidence v : ℚ)
    (hcpu : 2 ≤ cpuCount)
    (hv : bootstrap_iter (sample 0) pred gtruth metric frac 0 = Except.ok v) :
    bootstrap cpuCount sample pred gtruth metric 1 frac confidence =
      Except.ok (v, v, v) := by
  have hpm : poolMap (fun i => bootstrap_iter (sample i) pred gtruth metric frac i)
      (List.range 1) = Except.ok [v] := by
    rw [show List.range 1 = [0] from rfl]
    exact poolMap_cons_ok hv rfl
  rw [bootstrap_ok_of_poolMap cpuCount confidence hcpu hpm (by simp)]
  rw [show ([v] : List ℚ).insertionSort (· ≤ ·) = [v] from rfl]
  rw [percentileSorted_singleton, percentileSorted_singleton]
  norm_num [npMean]

/-- Witness for the C10 theorem at a concrete input. -/
theorem bootstrap_single_iteration_witness :
    2 ≤ 2 ∧
    bootstrap 2 (fun _ _ _ => ["b"]) (Pred.single [])
      [] (fun _ _ => (Except.ok 7 : Except Unit ℚ)) 1 (4/5) (1/2) =
      Except.ok (7, 7, 7) :=
  ⟨by norm_num,
    bootstrap_single_iteration 2 (fun _ _ _ => ["b"]) (Pred.single []) []
      (fun _ _ => (Except.ok 7 : Except Unit ℚ)) (4/5) (1/2) 7 (by norm_num) rfl⟩

/-- C8 (amended): `bootstrap` applies no validation to `n_iterations`.
With `n_iterations = 1` a successful iteration still yields a result
triple; with `n_iterations = 0` the percentile computation runs on the
empty result list and raises numpy's `IndexError` (not a validation
error), so no triple is returned. -/
theorem bootstrap_no_iteration_count_validation {ε : Type} (cpuCount : ℕ)
    (sample : ℕ → List String → ℚ → List String) (pred : Pred) (gtruth : Table)
    (metric : Pred → Table → Except ε ℚ) (frac confidence : ℚ)
    (hcpu : 2 ≤ cpuCount) :
    bootstrap cpuCount sample pred gtruth metric 0 frac confidence =
      Except.error BootErr.indexError ∧
    (∀ v, bootstrap_iter (sample 0) pred gtruth metric frac 0 = Except.ok v →
      (bootstrap cpuCount sample pred gtruth metric 1 frac confidence).isOk = true) := by
  constructor
  · unfold bootstrap
    rw [show poolProcesses cpuCount = some (cpuCount - 1) from by
      unfold poolProcesses
      rw [if_neg (by omega)]]
    rfl
  · intro v hv
    have hpm : poolMap (fun i => bootstrap_iter (sample i) pred gtruth metric frac i)
        (List.range 1) = Except.ok [v] := by
      rw [show List.range 1 = [0] from rfl]
      exact poolMap_cons_ok hv rfl
    rw [bootstrap_ok_of_poolMap cpuCount confidence hcpu hpm (by simp)]
    rfl

/-- Witness for the C8 theorem at a concrete input. -/
theorem bootstrap_no_iteration_count_validation_witness :
    2 ≤ 2 ∧
    bootstrap 2 (fun _ _ _ => ["a"]) (Pred.single [])
      [] (fun _ _ => (Except.ok 3 : Except Unit ℚ)) 0 (4/5) (9/10) =
      Except.error BootErr.indexError ∧
    (bootstrap 2 (fun _ _ _ => ["a"]) (Pred.single [])
      [] (fun _ _ => (Except.ok 3 : Except Unit ℚ)) 1 (4/5) (9/10)).isOk = true := by
  have h := bootstrap_no_iteration_count_validation 2 (fun _ _ _ => ["a"])
    (Pred.single []) [] (fun _ _ => (Except.ok 3 : Except Unit ℚ)) (4/5) (9/10)
    (by norm_num)
  exact ⟨by norm_num, h.1, h.2 3 rfl⟩

/-- C8 counterexample to the claim as stated: with `n_iterations = 0`
the concrete call raises `IndexError` from `np.percentile` on the empty
result list, so no `(mean, lower, upper)` triple is returned. -/
theorem bootstrap_zero_iterations_raises :
    bootstrap 2 sampleCE (Pred.single []) gtCE metricCE 0 (4/5) (9/10) =
      Except.error BootErr.indexError := by
  rfl

/-- C5 (amended): on a machine with at least two cores the pool
`bootstrap` creates holds exactly `cpu_count() - 1` worker processes,
which coincides with `max(1, cores - 1)` there; the single-core case
raises instead, see the counterexample. -/
theorem pool_size_cores_minus_one (cpuCount : ℕ) (h : 2 ≤ cpuCount) :
    poolProcesses cpuCount = some (cpuCount - 1) ∧
    cpuCount - 1 = max 1 (cpuCount - 1) := by
  constructor
  · unfold poolProcesses
    rw [if_neg (by omega)]
  · omega

/-- Witness for the amended C5 theorem on a four-core machine. -/
theorem pool_size_cores_minus_one_witness :
    poolProcesses 4 = some (4 - 1) ∧ 4 - 1 = max 1 (4 - 1) :=
  pool_size_cores_minus_one 4 (by norm_num)

/-- C5 counterexample: on a single-core machine `bootstrap` never
creates a pool of `max(1, 0) = 1` workers; `Pool(0)` raises
`ValueError` and `bootstrap` aborts. -/
theorem pool_single_core_value_error :
    bootstrap 1 sampleCE (Pred.single []) gtCE metricCE 200 (4/5) (9/10) =
      Except.error BootErr.valueError ∧
    poolProcesses 1 = none ∧ max 1 (1 - 1) = 1 :=
  ⟨rfl, rfl, rfl⟩

end TestModel

namespace TestModel

/-- Rows surviving the filter satisfy the filter's predicate. -/
lemma restrictTable_all (nk : List String) (tb : Table) :
    (restrictTable nk tb).all (fun r => decide (r.filename ∈ nk)) = true := by
  rw [List.all_eq_true]
  intro r hr
  have hmem : r ∈ List.filter (fun x => decide (x.filename ∈ nk)) tb := hr
  exact @List.of_mem_filter Row (fun x => decide (x.filename ∈ nk)) r tb hmem

/-- Filtering the tables of a list commutes with defaulted indexing. -/
lemma getD_map_restrict (nk : List String) (ts : List Table) (k : ℕ) :
    (ts.map (fun t => restrictTable nk t)).getD k [] =
      restrictTable nk (ts.getD k []) := by
  by_cases hk : k < ts.length
  · rw [List.getD_eq_getElem _ _ (by simpa using hk), List.getD_eq_getElem _ _ hk,
      List.getElem_map]
  · rw [List.getD_eq_default _ _ (by simpa using le_of_not_lt hk),
      List.getD_eq_default _ _ (le_of_not_lt hk)]
    rfl

/-- C3: in every bootstrap iteration the prediction rows and groundtruth
rows handed to the metric function contain only filenames of the drawn
subset, and in list-of-tables mode the same drawn subset is applied to
every table of the sequence, preserving the number and order of
tables. -/
theorem bootstrap_iter_only_drawn_filenames {α : Type}
    (sample : List String → ℚ → List String) (pred : Pred) (gtruth : Table)
    (metric : Pred → Table → α) (frac : ℚ) (idx : ℕ) :
    ∃ pred_bt gt_bt,
      bootstrap_iter sample pred gtruth metric frac idx = metric pred_bt gt_bt ∧
      gt_bt.all
        (fun r => decide (r.filename ∈ sample (uniqueFilenames gtruth) frac)) = true ∧
      pred_bt.tables.all (fun t => t.all
        (fun r => decide (r.filename ∈ sample (uniqueFilenames gtruth) frac))) = true ∧
      pred_bt.isMulti = pred.isMulti ∧
      pred_bt.tables.length = pred.tables.length ∧
      ∀ k : ℕ, pred_bt.tables.getD k [] =
        restrictTable (sample (uniqueFilenames gtruth) frac) (pred.tables.getD k []) := by
  cases pred with
  | single t =>
    refine ⟨Pred.single (restrictTable (sample (uniqueFilenames gtruth) frac) t),
      restrictTable (sample (uniqueFilenames gtruth) frac) gtruth, rfl,
      restrictTable_all _ _, ?_, rfl, rfl, ?_⟩
    · simp only [Pred.tables, List.all_cons, List.all_nil, Bool.and_true]
      exact restrictTable_all _ _
    · intro k
      cases k with
      | zero => rfl
      | succ m =>
        simp only [Pred.tables, List.getD]
        rfl
  | multi ts =>
    refine ⟨Pred.multi (ts.map
        (fun pdf => restrictTable (sample (uniqueFilenames gtruth) frac) pdf)),
      restrictTable (sample (uniqueFilenames gtruth) frac) gtruth, rfl,
      restrictTable_all _ _, ?_, rfl, by simp [Pred.tables], ?_⟩
    · rw [List.all_eq_true]
      intro t' ht'
      obtain ⟨t, -, rfl⟩ := List.mem_map.mp ht'
      exact restrictTable_all _ _
    · intro k
      exact getD_map_restrict _ ts k

/-- C4: every valid pandas draw of a bootstrap iteration consists of
`round(frac * u)` distinct filenames taken from the `u` unique filenames
of the groundtruth (so 8 filenames for 10 unique filenames at fraction
0.8), and at fraction 1 the draw is a permutation of the full filename
universe of the groundtruth. -/
theorem bootstrap_sample_size_and_universe :
    (∀ (gtruth : Table) (frac : ℚ) (draw : List String),
      ValidSample (uniqueFilenames gtruth) frac draw →
        draw.Nodup ∧ draw ⊆ uniqueFilenames gtruth ∧
        draw.length = sampleSize frac (uniqueFilenames gtruth).length ∧
        (frac = 1 → draw.Perm (uniqueFilenames gtruth))) ∧
    sampleSize (4/5) 10 = 8 := by
  constructor
  · intro gtruth frac draw hv
    obtain ⟨hnd, hsub, hlen⟩ := hv
    refine ⟨hnd, hsub, hlen, ?_⟩
    intro hfrac
    subst hfrac
    have hsz : sampleSize 1 (uniqueFilenames gtruth).length =
        (uniqueFilenames gtruth).length := by
      unfold sampleSize pyRound
      rw [show (1:ℚ) * ((uniqueFilenames gtruth).length : ℚ) =
        ((uniqueFilenames gtruth).length : ℚ) by ring]
      rw [Int.floor_natCast]
      rw [if_pos (by push_cast; norm_num)]
      exact Int.toNat_natCast _
    rw [hsz] at hlen
    exact (hnd.subperm hsub).perm_of_length_le (le_of_eq hlen.symm)
  · unfold sampleSize
    rw [show (4:ℚ)/5 * ((10:ℕ) : ℚ) = 8 by push_cast; norm_num]
    unfold pyRound
    rw [show ⌊(8:ℚ)⌋ = 8 by norm_num]
    norm_num
    omega

/-- Witness for the C4 theorem: at fraction 1 on the two-file test
groundtruth the draw of both filenames is valid and is the full
universe. -/
theorem bootstrap_sample_size_and_universe_witness :
    ValidSample (uniqueFilenames gtCE) 1 (["a", "b"] : List String) ∧
    (["a", "b"] : List String).Perm (uniqueFilenames gtCE) := by
  have hvs : ValidSample (uniqueFilenames gtCE) 1 ["a", "b"] := by
    rw [uniqueFilenames_gtCE]
    refine ⟨by simp, fun x hx => hx, ?_⟩
    unfold sampleSize pyRound
    rw [show (1:ℚ) * (((["a", "b"] : List String).length : ℕ) : ℚ) = 2 by norm_num]
    rw [show ⌊(2:ℚ)⌋ = 2 by norm_num]
    norm_num
    omega
  exact ⟨hvs, (bootstrap_sample_size_and_universe.1 gtCE 1 ["a", "b"] hvs).2.2.2 rfl⟩

/-- C6: fail-fast error policy of `bootstrap`.  If the metric raises on
one iteration while all others succeed, `bootstrap` raises that same
underlying error and returns no triple; if every iteration succeeds,
`bootstrap` returns a result triple. -/
theorem bootstrap_error_propagation {ε : Type} (cpuCount : ℕ)
    (sample : ℕ → List String → ℚ → List String) (pred : Pred) (gtruth : Table)
    (metric : Pred → Table → Except ε ℚ) (n_iterations : ℕ) (frac confidence : ℚ)
    (i : ℕ) (e : ε) (hcpu : 2 ≤ cpuCount) (hn : 1 ≤ n_iterations) :
    ((i < n_iterations ∧
      bootstrap_iter (sample i) pred gtruth metric frac i = Except.error e ∧
      (∀ j, j < n_iterations → j ≠ i →
        (bootstrap_iter (sample j) pred gtruth metric frac j).isOk = true)) →
      bootstrap cpuCount sample pred gtruth metric n_iterations frac confidence =
        Except.error (BootErr.metricRaised e)) ∧
    ((∀ j, j < n_iterations →
        (bootstrap_iter (sample j) pred gtruth metric frac j).isOk = true) →
      ∃ t, bootstrap cpuCount sample pred gtruth metric n_iterations frac confidence =
        Except.ok t) := by
  constructor
  · rintro ⟨hi, he, hok⟩
    have hpm : poolMap (fun j => bootstrap_iter (sample j) pred gtruth metric frac j)
        (List.range n_iterations) = Except.error e :=
      poolMap_error_of_unique (List.mem_range.mpr hi) he
        (fun j hj hne => hok j (List.mem_range.mp hj) hne)
    unfold bootstrap
    rw [show poolProcesses cpuCount = some (cpuCount - 1) from by
      unfold poolProcesses
      rw [if_neg (by omega)]]
    rw [hpm]
  · intro hok
    obtain ⟨rs, hrs⟩ := poolMap_ok_of_forall (fun j hj => hok j (List.mem_range.mp hj))
    have hlen : rs.length = n_iterations := by
      rw [poolMap_ok_length hrs, List.length_range]
    have hne : rs ≠ [] := by
      intro h
      rw [h] at hlen
      simp at hlen
      omega
    exact ⟨_, bootstrap_ok_of_poolMap cpuCount confidence hcpu hrs hne⟩

/-- Witness for the C6 theorem: a three-iteration run whose middle
iteration raises; `bootstrap` re-raises exactly that error. -/
theorem bootstrap_error_propagation_witness :
    (1 < 3 ∧
      bootstrap_iter (sampleE 1) (Pred.single []) gtCE metricE (1/2) 1 =
        Except.error () ∧
      (∀ j, j < 3 → j ≠ 1 →
        (bootstrap_iter (sampleE j) (Pred.single []) gtCE metricE (1/2) j).isOk = true)) ∧
    bootstrap 2 sampleE (Pred.single []) gtCE metricE 3 (1/2) (9/10) =
      Except.error (BootErr.metricRaised ()) := by
  have h1 : bootstrap_iter (sampleE 1) (Pred.single []) gtCE metricE (1/2) 1 =
      Except.error () := by
    simp [bootstrap_iter, sampleE, metricE, gtCE, rowA, rowB, restrictTable]
  have h2 : ∀ j, j < 3 → j ≠ 1 →
      (bootstrap_iter (sampleE j) (Pred.single []) gtCE metricE (1/2) j).isOk = true := by
    intro j hj hne
    simp [bootstrap_iter, sampleE, hne, metricE, gtCE, rowA, rowB, restrictTable,
      Except.isOk, Except.toBool]
  exact ⟨⟨by norm_num, h1, h2⟩,
    (bootstrap_error_propagation 2 sampleE (Pred.single []) gtCE metricE 3 (1/2)
      (9/10) 1 () (by norm_num) (by norm_num)).1 ⟨by norm_num, h1, h2⟩⟩

end TestModel
